import Mathlib

/-!
Verification of the FinOps-Pulse anomaly-detection pipeline
(`src/finops_pulse/pipeline.py`) against its specification.

The pipeline is embedded shallowly:

* pandas DataFrames become Lean lists of record structures;
* float arithmetic becomes exact arithmetic on `ℚ`;
* the in-place column assignment `df["date"] = pd.to_datetime(df["date"])`
  performed by `build_aggregates` is made explicit by returning the
  post-call state of the input table alongside the outputs.

Rational arithmetic is implemented by kernel-computable operations
(`qadd`, `qsub`, `qmul`, `qle`, `qlt`, ...) built from `mkRat` and the
`num`/`den` projections; each is proved equal to the corresponding
Mathlib operation, so theorems can be stated and proved against the
standard order and field structure of `ℚ` while concrete runs of the
pipeline still evaluate inside the kernel.
-/

/-- Kernel-computable addition on `ℚ`. -/
def qadd (a b : ℚ) : ℚ := mkRat (a.num * b.den + b.num * a.den) (a.den * b.den)

/-- Kernel-computable subtraction on `ℚ`. -/
def qsub (a b : ℚ) : ℚ := mkRat (a.num * b.den - b.num * a.den) (a.den * b.den)

/-- Kernel-computable multiplication on `ℚ`. -/
def qmul (a b : ℚ) : ℚ := mkRat (a.num * b.num) (a.den * b.den)

/-- Kernel-computable negation on `ℚ`. -/
def qneg (a : ℚ) : ℚ := mkRat (-a.num) a.den

/-- Kernel-computable absolute value on `ℚ`. -/
def qabs (a : ℚ) : ℚ := if a.num < 0 then qneg a else a

/-- Kernel-computable division of a rational by a natural number. -/
def qdivN (a : ℚ) (n : ℕ) : ℚ := mkRat a.num (a.den * n)

/-- Kernel-computable comparison: `a ≤ b` on `ℚ`. -/
def qle (a b : ℚ) : Bool := decide (a.num * (b.den : ℤ) ≤ b.num * (a.den : ℤ))

/-- Kernel-computable comparison: `a < b` on `ℚ`. -/
def qlt (a b : ℚ) : Bool := decide (a.num * (b.den : ℤ) < b.num * (a.den : ℤ))

/-- Kernel-computable sum of a list of rationals. -/
def qsum (l : List ℚ) : ℚ := l.foldr qadd 0

theorem ratden_ne (a : ℚ) : ((a.den : ℚ)) ≠ 0 :=
  Nat.cast_ne_zero.mpr a.den_nz

theorem ratden_pos (a : ℚ) : (0 : ℚ) < (a.den : ℚ) :=
  lt_of_le_of_ne (Nat.cast_nonneg _) (Ne.symm (ratden_ne a))

theorem num_eq (a : ℚ) : ((a.num : ℚ)) = a * a.den :=
  (div_eq_iff (ratden_ne a)).mp (Rat.num_div_den a)

theorem qadd_eq (a b : ℚ) : qadd a b = a + b := by
  rw [qadd, Rat.mkRat_eq_divInt, Rat.divInt_eq_div]
  push_cast
  rw [div_eq_iff (mul_ne_zero (ratden_ne a) (ratden_ne b)), num_eq a, num_eq b]
  ring

theorem qsub_eq (a b : ℚ) : qsub a b = a - b := by
  rw [qsub, Rat.mkRat_eq_divInt, Rat.divInt_eq_div]
  push_cast
  rw [div_eq_iff (mul_ne_zero (ratden_ne a) (ratden_ne b)), num_eq a, num_eq b]
  ring

theorem qmul_eq (a b : ℚ) : qmul a b = a * b := by
  rw [qmul, Rat.mkRat_eq_divInt, Rat.divInt_eq_div]
  push_cast
  rw [div_eq_iff (mul_ne_zero (ratden_ne a) (ratden_ne b)), num_eq a, num_eq b]
  ring

theorem qneg_eq (a : ℚ) : qneg a = -a := by
  rw [qneg, Rat.mkRat_eq_divInt, Rat.divInt_eq_div]
  push_cast
  rw [div_eq_iff (ratden_ne a), num_eq a]
  ring

theorem qabs_eq (a : ℚ) : qabs a = |a| := by
  rw [qabs]
  by_cases h : a.num < 0
  · rw [if_pos h, qneg_eq, abs_of_neg]
    exact Rat.num_neg.mp h
  · rw [if_neg h, abs_of_nonneg]
    exact Rat.num_nonneg.mp (le_of_not_lt h)

theorem qdivN_eq (a : ℚ) (n : ℕ) : qdivN a n = a / n := by
  rw [qdivN, Rat.mkRat_eq_divInt, Rat.divInt_eq_div]
  push_cast
  by_cases hn : (n : ℚ) = 0
  · rw [hn, mul_zero, div_zero, div_zero]
  · rw [div_eq_div_iff (mul_ne_zero (ratden_ne a) hn) hn, num_eq a]
    ring

theorem qle_eq (a b : ℚ) : qle a b = true ↔ a ≤ b := by
  rw [qle, decide_eq_true_eq, Rat.le_def]

theorem qlt_eq (a b : ℚ) : qlt a b = true ↔ a < b := by
  rw [qlt, decide_eq_true_eq, Rat.lt_def]

theorem qle_eq_false (a b : ℚ) : qle a b = false ↔ b < a := by
  rw [← Bool.not_eq_true, not_iff_comm, not_lt, ← qle_eq]

theorem qlt_eq_false (a b : ℚ) : qlt a b = false ↔ b ≤ a := by
  rw [← Bool.not_eq_true, not_iff_comm, not_le, ← qlt_eq]

theorem qsum_eq (l : List ℚ) : qsum l = l.sum := by
  induction l with
  | nil => rfl
  | cons x xs ih => rw [qsum, List.foldr_cons, qadd_eq, List.sum_cons, ← ih]; rfl

/-! ### Lexicographic string comparison

Python and pandas compare strings lexicographically by code point.  The
built-in `String.ltb` of Lean does not reduce inside the kernel, so the
same order is implemented structurally over the character list. -/

/-- Lexicographic comparison of character lists by code point. -/
def strLtL : List Char → List Char → Bool
  | [], [] => false
  | [], _ :: _ => true
  | _ :: _, [] => false
  | a :: as, b :: bs =>
    if a.toNat < b.toNat then true
    else if b.toNat < a.toNat then false
    else strLtL as bs

/-- Lexicographic strict order on strings, by code point (as in Python). -/
def strLt (a b : String) : Bool := strLtL a.data b.data

theorem strLtL_trans : ∀ x y z : List Char,
    strLtL x y = true → strLtL y z = true → strLtL x z = true := by
  intro x
  induction x with
  | nil =>
    intro y z hxy hyz
    cases y <;> cases z <;> simp_all [strLtL]
  | cons a as ih =>
    intro y z hxy hyz
    cases y with
    | nil => simp [strLtL] at hxy
    | cons b bs =>
      cases z with
      | nil => simp [strLtL] at hyz
      | cons c cs =>
        simp only [strLtL] at hxy hyz ⊢
        split_ifs at hxy hyz ⊢ <;>
          first
            | rfl
            | omega
            | exact Bool.noConfusion hxy
            | exact Bool.noConfusion hyz
            | exact ih bs cs hxy hyz

theorem strLtL_total : ∀ x y : List Char,
    strLtL x y = false → strLtL y x = false → x = y := by
  intro x
  induction x with
  | nil =>
    intro y hxy _
    cases y with
    | nil => rfl
    | cons b bs => simp [strLtL] at hxy
  | cons a as ih =>
    intro y hxy hyx
    cases y with
    | nil => simp [strLtL] at hyx
    | cons b bs =>
      simp only [strLtL] at hxy hyx
      split_ifs at hxy hyx <;>
        first
          | exact Bool.noConfusion hxy
          | exact Bool.noConfusion hyx
          | (have hv : a.toNat = b.toNat := by omega
             have ha : a = b := Char.ext (UInt32.toNat.inj hv)
             rw [ha, ih bs hxy hyx])

theorem strLt_trans {x y z : String} (h1 : strLt x y = true) (h2 : strLt y z = true) :
    strLt x z = true := strLtL_trans x.data y.data z.data h1 h2

theorem strLt_total {x y : String} (h1 : strLt x y = false) (h2 : strLt y x = false) :
    x = y := by
  have h := strLtL_total x.data y.data h1 h2
  cases x
  cases y
  exact congrArg String.mk h

/-! ### Stable insertion sort

`pd.DataFrame.sort_values` and the Python `list.sort` are modelled by a
structurally recursive insertion sort, which the kernel can evaluate on
concrete inputs (the mergeSort of the standard library is defined by
well-founded recursion and does not reduce there). -/

/-- Insert `x` into `l`, in front of the first element `y` with `le x y`. -/
def ins (le : α → α → Bool) (x : α) : List α → List α
  | [] => [x]
  | y :: ys => if le x y then x :: y :: ys else y :: ins le x ys

/-- Insertion sort with comparison `le`; stable for elements ranked equal. -/
def isort (le : α → α → Bool) : List α → List α
  | [] => []
  | x :: xs => ins le x (isort le xs)

theorem ins_perm (le : α → α → Bool) (x : α) (l : List α) :
    (ins le x l).Perm (x :: l) := by
  induction l with
  | nil => exact List.Perm.refl _
  | cons y ys ih =>
    rw [ins]
    by_cases h : le x y = true
    · rw [if_pos h]
    · rw [if_neg h]
      exact (List.Perm.cons y ih).trans (List.Perm.swap x y ys)

theorem isort_perm (le : α → α → Bool) (l : List α) : (isort le l).Perm l := by
  induction l with
  | nil => exact List.Perm.refl _
  | cons x xs ih => exact (ins_perm le x (isort le xs)).trans (List.Perm.cons x ih)

theorem mem_isort {le : α → α → Bool} {l : List α} {a : α} :
    a ∈ isort le l ↔ a ∈ l := (isort_perm le l).mem_iff

theorem length_isort (le : α → α → Bool) (l : List α) :
    (isort le l).length = l.length := (isort_perm le l).length_eq

theorem pairwise_ins {le : α → α → Bool}
    (trans : ∀ a b c, le a b = true → le b c = true → le a c = true)
    (total : ∀ a b, le a b = false → le b a = true)
    (x : α) {l : List α} (h : l.Pairwise (fun a b => le a b = true)) :
    (ins le x l).Pairwise (fun a b => le a b = true) := by
  induction l with
  | nil => simp [ins]
  | cons y ys ih =>
    rw [ins]
    rw [List.pairwise_cons] at h
    by_cases hxy : le x y = true
    · rw [if_pos hxy]
      refine List.Pairwise.cons ?_ (List.Pairwise.cons h.1 h.2)
      intro z hz
      rcases List.mem_cons.mp hz with rfl | hz
      · exact hxy
      · exact trans _ _ _ hxy (h.1 z hz)
    · rw [if_neg hxy]
      refine List.Pairwise.cons ?_ (ih h.2)
      intro z hz
      rcases List.mem_cons.mp ((ins_perm le x ys).mem_iff.mp hz) with rfl | hz2
      · exact total _ _ (Bool.eq_false_iff.mpr (fun hc => hxy hc))
      · exact h.1 z hz2

theorem pairwise_isort {le : α → α → Bool}
    (trans : ∀ a b c, le a b = true → le b c = true → le a c = true)
    (total : ∀ a b, le a b = false → le b a = true) (l : List α) :
    (isort le l).Pairwise (fun a b => le a b = true) := by
  induction l with
  | nil => exact List.Pairwise.nil
  | cons x xs ih => exact pairwise_ins trans total x ih

/-! ### Dates

`CostRecord.date` values arrive as ISO-8601 strings and are normalized by
`pd.to_datetime` to timestamp values.  A date value is therefore either a
raw string or a normalized day number.  The external pandas parser is
modelled by reading the digits of the string; on ISO-8601 dates
(YYYY-MM-DD) this mapping is injective and strictly monotone in the
calendar order, which is all the pipeline relies on. -/

/-- A raw or normalized date value (a string before `pd.to_datetime`, a
day-number stamp after). -/
inductive DateVal where
  | str (s : String)
  | stamp (n : ℕ)
deriving DecidableEq

/-- Model of the external date parser: read the digits of an ISO-8601
date string as one number (order-isomorphic to the calendar order). -/
def parseDate (s : String) : ℕ :=
  s.data.foldl (fun acc c => if 48 ≤ c.toNat ∧ c.toNat ≤ 57 then acc * 10 + (c.toNat - 48) else acc) 0

/-- The day number denoted by a date value. -/
def toStamp : DateVal → ℕ
  | .str s => parseDate s
  | .stamp n => n

/-- Model of `pd.to_datetime` on one date value: normalize to a stamp. -/
def pd_to_datetime (d : DateVal) : DateVal := DateVal.stamp (toStamp d)

/-! ### Medians and rounding -/

/-- Median of a list of rationals, as `np.median`: the middle element of
the sorted list, or the mean of the two middle elements for even length.
The empty list is given median 0 (callers guard the empty case, where
`np.median` returns NaN). -/
def medianQ (xs : List ℚ) : ℚ :=
  let ys := isort qle xs
  let n := xs.length
  if n % 2 = 1 then ys.getD (n / 2) 0
  else qdivN (qadd (ys.getD (n / 2 - 1) 0) (ys.getD (n / 2) 0)) 2

/-- `pipeline._median_abs_deviation`: median of absolute deviations from
the median. -/
def _median_abs_deviation (x : List ℚ) : ℚ :=
  let med := medianQ x
  medianQ (x.map (fun v => qabs (qsub v med)))

/-- Round a rational to the nearest integer, ties to even — the rounding
mode of the Python built-in `round`. -/
def rhe (q : ℚ) : ℤ :=
  let w := Int.ediv q.num q.den
  let r := q.num - w * q.den
  if 2 * r < (q.den : ℤ) then w
  else if (q.den : ℤ) < 2 * r then w + 1
  else if w % 2 = 0 then w else w + 1

/-- Model of `round(x, 2)`. -/
def round2 (x : ℚ) : ℚ := mkRat (rhe (mkRat (x.num * 100) x.den)) 100

/-! ### The robust anomaly detector (`pipeline._detect_mad`) -/

/-- `pipeline.AnomalyConfig`. -/
structure AnomalyConfig where
  window_days : ℕ := 14
  mad_multiplier : ℚ := 8
  min_history : ℕ := 21
deriving DecidableEq

/-- A pandas Series indexed by date: the list of (index, value) pairs in
positional order. -/
abbrev Series := List (DateVal × ℚ)

/-- One row emitted by `_detect_mad` (fields as built on lines 38-45 of
`pipeline.py`, all rounded to 2 decimals). -/
structure AnomalyRow where
  date : DateVal
  value : ℚ
  baseline : ℚ
  mad : ℚ
  threshold : ℚ
  delta : ℚ
deriving DecidableEq

/-- The trailing history window `s.iloc[max(0, i - window_days):i]`
(values only; right-exclusive of the current point). -/
def histAt (s : Series) (cfg : AnomalyConfig) (i : ℕ) : List ℚ :=
  ((s.take i).drop (i - cfg.window_days)).map Prod.snd

/-- `baseline = np.median(hist)`. -/
def baselineAt (s : Series) (cfg : AnomalyConfig) (i : ℕ) : ℚ :=
  medianQ (histAt s cfg i)

/-- `mad = _median_abs_deviation(hist)` before the degeneracy floor. -/
def madRawAt (s : Series) (cfg : AnomalyConfig) (i : ℕ) : ℚ :=
  _median_abs_deviation (histAt s cfg i)

/-- The floored MAD: `mad if mad > 1e-6 else 1.0`. -/
def madAt (s : Series) (cfg : AnomalyConfig) (i : ℕ) : ℚ :=
  if qlt (mkRat 1 1000000) (madRawAt s cfg i) then madRawAt s cfg i else 1

/-- The body of the loop of `_detect_mad` at index `i`: `some row` when
index `i` is flagged, `none` otherwise.  When the history window is
empty (possible only for `i = 0` or `window_days = 0`), `np.median`
returns NaN and every comparison with NaN is false, so the index is
never flagged; this is modelled by the explicit empty-window guard. -/
def detectAt (s : Series) (cfg : AnomalyConfig) (i : ℕ) : Option AnomalyRow :=
  if i < cfg.min_history then none
  else
    match s[i]? with
    | none => none
    | some p =>
      if (histAt s cfg i).isEmpty then none
      else if qlt (qadd (baselineAt s cfg i) (qmul cfg.mad_multiplier (madAt s cfg i))) p.2 then
        some ⟨p.1, round2 p.2, round2 (baselineAt s cfg i), round2 (madAt s cfg i),
              round2 (qadd (baselineAt s cfg i) (qmul cfg.mad_multiplier (madAt s cfg i))),
              round2 (qsub p.2 (baselineAt s cfg i))⟩
      else none

/-- `pipeline._detect_mad`: run the loop body over all positions. -/
def _detect_mad (series : Series) (cfg : AnomalyConfig) : List AnomalyRow :=
  (List.range series.length).filterMap (detectAt series cfg)

/-- Whether index `i` of the series is flagged as an anomaly. -/
def isFlagged (s : Series) (cfg : AnomalyConfig) (i : ℕ) : Bool :=
  (detectAt s cfg i).isSome

/-- The 40-day series of the end-to-end scenario: constant 100 with the
single point at day 30 replaced by 500. -/
def series40 : Series :=
  (List.range 40).map (fun i => (DateVal.stamp i, if i = 30 then (500 : ℚ) else 100))

/-! ### Data model of the aggregate tables -/

/-- One raw input row (columns of the ingested cost ledger). -/
structure CostRecord where
  date : DateVal
  subscription : String
  resource_group : String
  service : String
  cost : ℚ
deriving DecidableEq

/-- One row of the daily-total table (columns `date`, `total_cost`). -/
structure TotalRow where
  date : DateVal
  total_cost : ℚ
deriving DecidableEq

/-- One row of the daily-by-service table. -/
structure SvcRow where
  date : DateVal
  service : String
  cost : ℚ
deriving DecidableEq

/-- One row of the daily-by-resource-group table. -/
structure RgRow where
  date : DateVal
  resource_group : String
  cost : ℚ
deriving DecidableEq

/-- One row of the merged anomaly table (an `AnomalyRow` plus the
`level` and `key` columns added by the scanner). -/
structure TaggedRow where
  date : DateVal
  value : ℚ
  baseline : ℚ
  mad : ℚ
  threshold : ℚ
  delta : ℚ
  level : String
  key : String
deriving DecidableEq

/-- Non-strict string order used for sorted group keys. -/
def strLe (a b : String) : Bool := !(strLt b a)

/-- Date order used by `sort_values("date")` (chronological; on ISO-8601
strings the lexicographic order used by pandas coincides with it). -/
def dateLe (a b : DateVal) : Bool := decide (toStamp a ≤ toStamp b)

/-- Order on (date, name) group keys, as `groupby` sorts them. -/
def dsKeyLe (a b : DateVal × String) : Bool :=
  if toStamp a.1 ≠ toStamp b.1 then decide (toStamp a.1 < toStamp b.1) else strLe a.2 b.2

/-- The sorted distinct group keys produced by `groupby` on one string
column. -/
def sortKeysStr (l : List String) : List String := isort strLe l.dedup

/-! ### The aggregator (`pipeline.build_aggregates`)

The Python function assigns `df["date"] = pd.to_datetime(df["date"])`,
an in-place write into the frame of the caller, before grouping.  The
embedding returns the post-call state of `df` as the first component,
alongside the three aggregate tables. -/

/-- The in-place date normalization
`df["date"] = pd.to_datetime(df["date"])` applied to one record. -/
def normRec (r : CostRecord) : CostRecord := { r with date := pd_to_datetime r.date }

/-- The three `groupby(...)["cost"].sum()` tables built from the frame
with normalized dates (group keys sorted, one row per distinct key, the
cost column summed within the group). -/
def aggTables (df2 : List CostRecord) : List TotalRow × List SvcRow × List RgRow :=
  ((isort dateLe (df2.map (fun r => r.date)).dedup).map
    (fun d => ⟨d, qsum ((df2.filter (fun r => r.date = d)).map (fun r => r.cost))⟩),
   (isort dsKeyLe (df2.map (fun r => (r.date, r.service))).dedup).map
    (fun k => ⟨k.1, k.2,
      qsum ((df2.filter (fun r => (r.date, r.service) = k)).map (fun r => r.cost))⟩),
   (isort dsKeyLe (df2.map (fun r => (r.date, r.resource_group))).dedup).map
    (fun k => ⟨k.1, k.2,
      qsum ((df2.filter (fun r => (r.date, r.resource_group) = k)).map (fun r => r.cost))⟩))

/-- `pipeline.build_aggregates`.  First component: the state of the
input table after the call (date column normalized in place). -/
def build_aggregates (df : List CostRecord) :
    List CostRecord × List TotalRow × List SvcRow × List RgRow :=
  let df2 := df.map normRec
  (df2, aggTables df2)

/-! ### The multi-level scanner (`pipeline.detect_anomalies`) -/

/-- The total series `daily_total.set_index("date")["total_cost"]`. -/
def totalSeries (dt : List TotalRow) : Series := dt.map (fun r => (r.date, r.total_cost))

/-- One service slice: the rows of that service sorted by date, as a
series. -/
def svcSlice (ds : List SvcRow) (svc : String) : Series :=
  (isort (fun r1 r2 => dateLe r1.date r2.date) (ds.filter (fun r => r.service = svc))).map
    (fun r => (r.date, r.cost))

/-- One resource-group slice, sorted by date, as a series. -/
def rgSlice (dr : List RgRow) (rg : String) : Series :=
  (isort (fun r1 r2 => dateLe r1.date r2.date) (dr.filter (fun r => r.resource_group = rg))).map
    (fun r => (r.date, r.cost))

/-- Attach the `level` and `key` columns to detector output. -/
def tagRows (l : List AnomalyRow) (lv k : String) : List TaggedRow :=
  l.map (fun r => ⟨r.date, r.value, r.baseline, r.mad, r.threshold, r.delta, lv, k⟩)

/-- Total-level anomalies (level `"total"`, key `"all"`). -/
def a_totalOf (dt : List TotalRow) (cfg : AnomalyConfig) : List TaggedRow :=
  tagRows (_detect_mad (totalSeries dt) cfg) "total" "all"

/-- Service-level anomalies: run the detector per service group. -/
def a_serviceOf (ds : List SvcRow) (cfg : AnomalyConfig) : List TaggedRow :=
  (sortKeysStr (ds.map (fun r => r.service))).flatMap
    (fun svc => tagRows (_detect_mad (svcSlice ds svc) cfg) "service" svc)

/-- Resource-group-level anomalies: run the detector per group. -/
def a_rgOf (dr : List RgRow) (cfg : AnomalyConfig) : List TaggedRow :=
  (sortKeysStr (dr.map (fun r => r.resource_group))).flatMap
    (fun rg => tagRows (_detect_mad (rgSlice dr rg) cfg) "resource_group" rg)

/-- Normalize the `date` column of the merged table
(`anomalies["date"] = pd.to_datetime(anomalies["date"])`). -/
def normTagDate (r : TaggedRow) : TaggedRow := { r with date := pd_to_datetime r.date }

/-- The comparison realized by
`sort_values(["date", "level", "delta"], ascending=[True, True, False])`. -/
def rowLe (a b : TaggedRow) : Bool :=
  if toStamp a.date ≠ toStamp b.date then decide (toStamp a.date < toStamp b.date)
  else if a.level ≠ b.level then strLt a.level b.level
  else qle b.delta a.delta

/-- `pipeline.detect_anomalies`: concatenate the three levels, normalize
dates, sort by (date asc, level asc, delta desc).  An all-empty
concatenation yields the explicitly empty table. -/
def detect_anomalies (daily_total : List TotalRow) (daily_by_service : List SvcRow)
    (daily_by_rg : List RgRow) (cfg : AnomalyConfig) : List TaggedRow :=
  isort rowLe
    ((a_totalOf daily_total cfg ++ a_serviceOf daily_by_service cfg ++
      a_rgOf daily_by_rg cfg).map normTagDate)

/-! ### The driver explainer (`pipeline.explain_total_anomalies`) -/

/-- One output record of the explainer: the flagged day plus exactly
`top_k` (service, delta) slots and `top_k` (resource-group, delta)
slots (the fixed-width columns `top_service_i` / `service_delta_i` and
`top_rg_i` / `rg_delta_i`). -/
structure ExplRecord where
  date : ℕ
  services : List (String × ℚ)
  rgs : List (String × ℚ)
deriving DecidableEq

/-- Date normalization of the copied by-service table
(`daily_by_service["date"] = pd.to_datetime(...)` on the copy). -/
def normSvcRow (r : SvcRow) : SvcRow := { r with date := pd_to_datetime r.date }

/-- Date normalization of the copied by-resource-group table. -/
def normRgRow (r : RgRow) : RgRow := { r with date := pd_to_datetime r.date }

/-- `svc_today`: by-service rows of the anomaly day. -/
def svcToday (bsvc : List SvcRow) (day : ℕ) : List SvcRow :=
  (bsvc.map normSvcRow).filter (fun r => toStamp r.date = day)

/-- `svc_hist`: by-service rows of the trailing 14-day window
`[day - 14, day)` (day arithmetic on stamps). -/
def svcHist (bsvc : List SvcRow) (day : ℕ) : List SvcRow :=
  (bsvc.map normSvcRow).filter (fun r => day - 14 ≤ toStamp r.date ∧ toStamp r.date < day)

/-- `rg_today`. -/
def rgToday (brg : List RgRow) (day : ℕ) : List RgRow :=
  (brg.map normRgRow).filter (fun r => toStamp r.date = day)

/-- `rg_hist`. -/
def rgHist (brg : List RgRow) (day : ℕ) : List RgRow :=
  (brg.map normRgRow).filter (fun r => day - 14 ≤ toStamp r.date ∧ toStamp r.date < day)

/-- `svc_base.get(service, 0.0)`: median window cost of one service,
defaulting to 0 for a service absent from the window. -/
def svcBase (bsvc : List SvcRow) (day : ℕ) (s : String) : ℚ :=
  let cs := ((svcHist bsvc day).filter (fun r => r.service = s)).map (fun r => r.cost)
  if cs.isEmpty then 0 else medianQ cs

/-- `rg_base.get(rg, 0.0)`. -/
def rgBase (brg : List RgRow) (day : ℕ) (g : String) : ℚ :=
  let cs := ((rgHist brg day).filter (fun r => r.resource_group = g)).map (fun r => r.cost)
  if cs.isEmpty then 0 else medianQ cs

/-- `svc_delta`: (service, cost − baseline) for every service row of the
anomaly day. -/
def svcDeltas (bsvc : List SvcRow) (day : ℕ) : List (String × ℚ) :=
  (svcToday bsvc day).map (fun r => (r.service, qsub r.cost (svcBase bsvc day r.service)))

/-- `rg_delta`. -/
def rgDeltas (brg : List RgRow) (day : ℕ) : List (String × ℚ) :=
  (rgToday brg day).map (fun r => (r.resource_group, qsub r.cost (rgBase brg day r.resource_group)))

/-- The comparison realized by `sort(key=lambda x: x[1], reverse=True)`. -/
def deltaDescLe (a b : String × ℚ) : Bool := qle b.2 a.2

/-- Fixed-width top-k slots: slot `i` is the i-th ranked (name, rounded
delta) pair, or `("", 0.0)` past the end of the ranking. -/
def padSlots (k : ℕ) (l : List (String × ℚ)) : List (String × ℚ) :=
  (List.range k).map (fun i =>
    match l[i]? with
    | some p => (p.1, round2 p.2)
    | none => ("", 0))

/-- The explanation record built for one flagged total-anomaly row. -/
def explRecordFor (bsvc : List SvcRow) (brg : List RgRow) (row : TaggedRow) (k : ℕ) :
    ExplRecord :=
  let day := toStamp (pd_to_datetime row.date)
  ⟨day, padSlots k (isort deltaDescLe (svcDeltas bsvc day)),
        padSlots k (isort deltaDescLe (rgDeltas brg day))⟩

/-- `pipeline.explain_total_anomalies`. -/
def explain_total_anomalies (daily_by_service : List SvcRow) (daily_by_rg : List RgRow)
    (total_anomalies : List TaggedRow) (top_k : ℕ := 3) : List ExplRecord :=
  if total_anomalies.isEmpty then []
  else total_anomalies.map (fun row => explRecordFor daily_by_service daily_by_rg row top_k)

/-! ### Concrete inputs used by counterexamples and witnesses -/

/-- A two-day total table with a jump on the second day. -/
def dtX : List TotalRow := [⟨DateVal.stamp 0, 100⟩, ⟨DateVal.stamp 1, 200⟩]

/-- A single-service by-service table carrying the same series. -/
def dsX : List SvcRow := [⟨DateVal.stamp 0, "A", 100⟩, ⟨DateVal.stamp 1, "A", 200⟩]

/-- A small configuration under which day 1 of `dtX` is anomalous. -/
def cfgX : AnomalyConfig := ⟨1, 1, 1⟩

/-- A flat two-day series. -/
def sFlat : Series := [(DateVal.stamp 0, 100), (DateVal.stamp 1, 100)]

/-- The same series with the evaluated point mutated upward. -/
def sSpike : Series := [(DateVal.stamp 0, 100), (DateVal.stamp 1, 200)]

/-- A raw ledger whose date is an unnormalized ISO string. -/
def dfX : List CostRecord := [⟨DateVal.str "2024-01-05", "sub-prod", "rg-core", "Compute", 100⟩]

/-- A one-row by-service table on day 10 (fewer rows than `top_k`). -/
def bsvcX : List SvcRow := [⟨DateVal.stamp 10, "A", 100⟩]

/-- One flagged total anomaly on day 10. -/
def anomX : List TaggedRow := [⟨DateVal.stamp 10, 500, 100, 1, 108, 400, "total", "all"⟩]

/-- The standard configuration of the run driver. -/
def cfgStd : AnomalyConfig := ⟨14, 8, 21⟩

/-- Projection of a cost record to its non-date columns. -/
def nonDateCols (r : CostRecord) : String × String × String × ℚ :=
  (r.subscription, r.resource_group, r.service, r.cost)

/-- The number of by-service rows on a given day — the number of filled
service slots of that day before padding. -/
def svcTodayCount (bsvc : List SvcRow) (day : ℕ) : ℕ := (svcToday bsvc day).length

/-- The number of by-resource-group rows on a given day. -/
def rgTodayCount (brg : List RgRow) (day : ℕ) : ℕ := (rgToday brg day).length

/-- The explanation record produced for `anomX` from `bsvcX` with
`top_k = 3`: one real service slot, all other slots padded. -/
def recX : ExplRecord :=
  ⟨10, [("A", 100), ("", 0), ("", 0)], [("", 0), ("", 0), ("", 0)]⟩

/-! ### Helper lemmas about the comparison functions -/

theorem qle_trans {x y z : ℚ} (h1 : qle x y = true) (h2 : qle y z = true) :
    qle x z = true :=
  (qle_eq _ _).mpr (le_trans ((qle_eq _ _).mp h1) ((qle_eq _ _).mp h2))

theorem strLtL_irrefl : ∀ x : List Char, strLtL x x = false := by
  intro x
  induction x with
  | nil => rfl
  | cons a as ih => simp [strLtL, ih]

theorem strLt_irrefl (x : String) : strLt x x = false := strLtL_irrefl x.data

theorem rowLe_trans (a b c : TaggedRow) (h1 : rowLe a b = true) (h2 : rowLe b c = true) :
    rowLe a c = true := by
  unfold rowLe at h1 h2 ⊢
  by_cases e1 : toStamp a.date = toStamp b.date <;>
    by_cases e2 : toStamp b.date = toStamp c.date
  · rw [if_neg (fun hc => hc e1)] at h1
    rw [if_neg (fun hc => hc e2)] at h2
    rw [if_neg (fun hc => hc (e1.trans e2))]
    by_cases f1 : a.level = b.level <;> by_cases f2 : b.level = c.level
    · rw [if_neg (fun hc => hc f1)] at h1
      rw [if_neg (fun hc => hc f2)] at h2
      rw [if_neg (fun hc => hc (f1.trans f2))]
      exact qle_trans h2 h1
    · rw [if_pos f2] at h2
      rw [if_pos (f1 ▸ f2 : a.level ≠ c.level)]
      exact f1 ▸ h2
    · rw [if_pos f1] at h1
      rw [if_pos (f2 ▸ f1 : a.level ≠ c.level)]
      exact f2 ▸ h1
    · rw [if_pos f1] at h1
      rw [if_pos f2] at h2
      by_cases f3 : a.level = c.level
      · exfalso
        have hbb := strLt_trans h2 (f3 ▸ h1)
        rw [strLt_irrefl] at hbb
        exact Bool.noConfusion hbb
      · rw [if_pos f3]
        exact strLt_trans h1 h2
  · rw [if_pos e2] at h2
    have hlt := of_decide_eq_true h2
    rw [if_pos (show toStamp a.date ≠ toStamp c.date by omega)]
    exact decide_eq_true (by omega)
  · rw [if_pos e1] at h1
    have hlt := of_decide_eq_true h1
    rw [if_pos (show toStamp a.date ≠ toStamp c.date by omega)]
    exact decide_eq_true (by omega)
  · rw [if_pos e1] at h1
    rw [if_pos e2] at h2
    have l1 := of_decide_eq_true h1
    have l2 := of_decide_eq_true h2
    rw [if_pos (show toStamp a.date ≠ toStamp c.date by omega)]
    exact decide_eq_true (by omega)

theorem rowLe_total (a b : TaggedRow) (h : rowLe a b = false) : rowLe b a = true := by
  unfold rowLe at h ⊢
  by_cases e1 : toStamp a.date = toStamp b.date
  · rw [if_neg (fun hc => hc e1)] at h
    rw [if_neg (fun hc => hc e1.symm)]
    by_cases f1 : a.level = b.level
    · rw [if_neg (fun hc => hc f1)] at h
      rw [if_neg (fun hc => hc f1.symm)]
      exact (qle_eq _ _).mpr (le_of_lt ((qle_eq_false _ _).mp h))
    · rw [if_pos f1] at h
      rw [if_pos (Ne.symm f1)]
      cases hg : strLt b.level a.level with
      | false => exact absurd (strLt_total h hg) f1
      | true => rfl
  · rw [if_pos e1] at h
    rw [if_pos (Ne.symm e1)]
    have hnlt := of_decide_eq_false h
    exact decide_eq_true (by omega)

/-! ### Helper lemmas about the detector -/

/-- Characterization of a flagged index: enough history, an existing
point, a nonempty window, and value strictly above the threshold. -/
theorem isFlagged_iff (s : Series) (cfg : AnomalyConfig) (i : ℕ) :
    isFlagged s cfg i = true ↔
      cfg.min_history ≤ i ∧ ∃ p, s[i]? = some p ∧ histAt s cfg i ≠ [] ∧
        baselineAt s cfg i + cfg.mad_multiplier * madAt s cfg i < p.2 := by
  rw [isFlagged, detectAt]
  by_cases hi : i < cfg.min_history
  · rw [if_pos hi]
    simp only [Option.isSome_none, Bool.false_eq_true, false_iff, not_and]
    intro hle
    omega
  · rw [if_neg hi]
    cases hgi : s[i]? with
    | none =>
      simp only [Option.isSome_none, Bool.false_eq_true, false_iff, not_and]
      intro _ ⟨p, hp, _⟩
      exact Option.noConfusion hp
    | some p =>
      dsimp only
      by_cases he : (histAt s cfg i).isEmpty
      · rw [if_pos he]
        simp only [Option.isSome_none, Bool.false_eq_true, false_iff, not_and]
        intro _ ⟨q, hq, hne, _⟩
        exact hne (List.isEmpty_iff.mp he)
      · rw [if_neg he]
        by_cases hq : qlt (qadd (baselineAt s cfg i) (qmul cfg.mad_multiplier (madAt s cfg i))) p.2
        · rw [if_pos hq]
          simp only [Option.isSome_some, true_iff]
          refine ⟨Nat.le_of_not_lt hi, p, rfl, fun hc => he (by rw [hc]; rfl), ?_⟩
          have := (qlt_eq _ _).mp hq
          rwa [qadd_eq, qmul_eq] at this
        · rw [if_neg hq]
          simp only [Option.isSome_none, Bool.false_eq_true, false_iff, not_and]
          intro _ ⟨q, hq2, _, hlt⟩
          have hpq : p = q := Option.some.inj hq2
          apply hq
          rw [qlt_eq, qadd_eq, qmul_eq]
          exact hpq ▸ hlt

/-- The floored MAD is always strictly positive. -/
theorem madAt_pos (s : Series) (cfg : AnomalyConfig) (i : ℕ) : 0 < madAt s cfg i := by
  rw [madAt]
  split_ifs with h
  · have h1 := (qlt_eq _ _).mp h
    have h0 : (0 : ℚ) < mkRat 1 1000000 := by
      rw [Rat.mkRat_eq_divInt, Rat.divInt_eq_div]
      norm_num
    exact lt_trans h0 h1
  · norm_num

theorem length_filterMap_mono {α β : Type} (f g : α → Option β) (l : List α)
    (h : ∀ a, (f a).isSome = true → (g a).isSome = true) :
    (l.filterMap f).length ≤ (l.filterMap g).length := by
  induction l with
  | nil => exact Nat.le_refl 0
  | cons x xs ih =>
    rw [List.filterMap_cons, List.filterMap_cons]
    cases hf : f x with
    | none =>
      cases hg : g x with
      | none => exact ih
      | some b => exact le_trans ih (by simp)
    | some b =>
      cases hg : g x with
      | none =>
        have := h x (by rw [hf]; rfl)
        rw [hg] at this
        exact absurd this (by simp)
      | some c => simpa using ih

/-! ### Claims -/

/-- C7: for every series, configuration, and index `i < min_history`, the
detector emits no record for index `i` — the index is silently skipped
and no error is raised, whatever the series values. -/
theorem claim_C7 (s : Series) (cfg : AnomalyConfig) (i : ℕ) (h : i < cfg.min_history) :
    detectAt s cfg i = none := by
  rw [detectAt, if_pos h]

theorem claim_C7_witness : detectAt sFlat cfgStd 0 = none :=
  claim_C7 sFlat cfgStd 0 (by decide)

/-- C2 (amended): the baseline and MAD at index `i` depend only on the
trailing window slice `s[max(0, i - window_days):i]`, and two series
that agree on the prefix up to AND INCLUDING index `i` yield the same
flag decision at `i`; hence mutating points strictly after `i` never
changes the decision at `i`.  (The original claim, that the decision is
also insensitive to the value at `i` itself, is false: see the
counterexample.) -/
theorem claim_C2 (s1 s2 : Series) (cfg : AnomalyConfig) (i : ℕ)
    (hmh : cfg.min_history ≤ i)
    (hw : (s1.take i).drop (i - cfg.window_days) = (s2.take i).drop (i - cfg.window_days)) :
    (baselineAt s1 cfg i = baselineAt s2 cfg i ∧ madAt s1 cfg i = madAt s2 cfg i) ∧
    (s1.take (i + 1) = s2.take (i + 1) → detectAt s1 cfg i = detectAt s2 cfg i) := by
  have hhist : histAt s1 cfg i = histAt s2 cfg i := by
    rw [histAt, histAt, hw]
  have hb : baselineAt s1 cfg i = baselineAt s2 cfg i := by
    rw [baselineAt, baselineAt, hhist]
  have hm : madAt s1 cfg i = madAt s2 cfg i := by
    rw [madAt, madAt, madRawAt, madRawAt, hhist]
  refine ⟨⟨hb, hm⟩, fun hpre => ?_⟩
  have hg : s1[i]? = s2[i]? := by
    have h1 : (s1.take (i + 1))[i]? = s1[i]? := List.getElem?_take_of_lt (Nat.lt_succ_self i)
    have h2 : (s2.take (i + 1))[i]? = s2[i]? := List.getElem?_take_of_lt (Nat.lt_succ_self i)
    rw [← h1, ← h2, hpre]
  rw [detectAt, detectAt, hg, hhist, hb, hm]

theorem claim_C2_witness :
    baselineAt sFlat cfgX 1 = baselineAt sSpike cfgX 1 ∧
    madAt sFlat cfgX 1 = madAt sSpike cfgX 1 :=
  (claim_C2 sFlat sSpike cfgX 1 (by decide) (by decide)).1

/-- C2 counterexample: two series agreeing on all indices before `i = 1`
(but differing at `i` itself) get different flag decisions at `i`, so
the flag decision is not a function of the strictly-prior prefix alone. -/
theorem claim_C2_cex :
    cfgX.min_history ≤ 1 ∧ sFlat.take 1 = sSpike.take 1 ∧
    isFlagged sFlat cfgX 1 = false ∧ isFlagged sSpike cfgX 1 = true := by decide

/-- C4: on the 40-day constant-100 series with a single 500 spike at day
30, under window 14 / multiplier 8 / min-history 21 the detector flags
exactly day 30, with baseline 100, floored mad 1, threshold 108 and
delta 400. -/
theorem claim_C4 : _detect_mad series40 cfgStd =
    [⟨DateVal.stamp 30, 500, 100, 1, 108, 400⟩] := by decide

/-- C5: for a fixed series, window and min-history, raising the MAD
multiplier can only shrink the set of flagged indices, and in particular
can not increase the number of flagged points. -/
theorem claim_C5 (s : Series) (w mh : ℕ) (m1 m2 : ℚ) (h1 : 0 < m1) (h12 : m1 ≤ m2) :
    (∀ i, isFlagged s ⟨w, m2, mh⟩ i = true → isFlagged s ⟨w, m1, mh⟩ i = true) ∧
    (_detect_mad s ⟨w, m2, mh⟩).length ≤ (_detect_mad s ⟨w, m1, mh⟩).length := by
  have hmono : ∀ i, isFlagged s ⟨w, m2, mh⟩ i = true → isFlagged s ⟨w, m1, mh⟩ i = true := by
    intro i hf
    rw [isFlagged_iff] at hf ⊢
    obtain ⟨hi, p, hp, hne, hlt⟩ := hf
    refine ⟨hi, p, hp, hne, ?_⟩
    have hmp : (0 : ℚ) < madAt s ⟨w, m2, mh⟩ i := madAt_pos s ⟨w, m2, mh⟩ i
    have hmul : m1 * madAt s ⟨w, m2, mh⟩ i ≤ m2 * madAt s ⟨w, m2, mh⟩ i :=
      mul_le_mul_of_nonneg_right h12 (le_of_lt hmp)
    have hlt2 : baselineAt s ⟨w, m2, mh⟩ i + m2 * madAt s ⟨w, m2, mh⟩ i < p.2 := hlt
    show baselineAt s ⟨w, m2, mh⟩ i + m1 * madAt s ⟨w, m2, mh⟩ i < p.2
    linarith
  exact ⟨hmono, length_filterMap_mono _ _ _ (fun i => hmono i)⟩

theorem claim_C5_witness :
    (_detect_mad series40 ⟨14, 9, 21⟩).length ≤ (_detect_mad series40 ⟨14, 8, 21⟩).length :=
  (claim_C5 series40 14 21 8 9 (by decide) (by decide)).2

/-- C10: with a positive multiplier, every record the detector emits
satisfies value − baseline > mad_multiplier × mad with the floored mad
strictly positive; the unrounded delta is strictly positive, so only
upward deviations are ever reported. -/
theorem claim_C10 (s : Series) (cfg : AnomalyConfig) (hm : 0 < cfg.mad_multiplier)
    (i : ℕ) (r : AnomalyRow) (h : detectAt s cfg i = some r) :
    0 < madAt s cfg i ∧
    ∃ p, s[i]? = some p ∧
      cfg.mad_multiplier * madAt s cfg i < p.2 - baselineAt s cfg i ∧
      0 < p.2 - baselineAt s cfg i ∧ baselineAt s cfg i < p.2 := by
  have hf : isFlagged s cfg i = true := by rw [isFlagged, h]; rfl
  rw [isFlagged_iff] at hf
  obtain ⟨hi, p, hp, hne, hlt⟩ := hf
  have hmp := madAt_pos s cfg i
  have hpos : 0 < cfg.mad_multiplier * madAt s cfg i := mul_pos hm hmp
  exact ⟨hmp, p, hp, by linarith, by linarith, by linarith⟩

theorem claim_C10_witness : 0 < madAt series40 cfgStd 30 :=
  (claim_C10 series40 cfgStd (by decide) 30 ⟨DateVal.stamp 30, 500, 100, 1, 108, 400⟩
    (by decide)).1

/-- C1 (amended): the merged anomaly table is sorted by (date ascending,
level ascending lexicographically, delta descending); consequently, for
two anomalies sharing a date, one with level `"total"` and one with
level `"service"`, the SERVICE row appears first — `"service"` precedes
`"total"` in the lexicographic order — regardless of insertion order or
delta magnitude.  (The original claim that the total row appears first
is false: see the counterexample.) -/
theorem claim_C1 (dt : List TotalRow) (ds : List SvcRow) (dr : List RgRow)
    (cfg : AnomalyConfig) :
    (detect_anomalies dt ds dr cfg).Pairwise (fun a b => rowLe a b = true) ∧
    (detect_anomalies dt ds dr cfg).Pairwise (fun a b =>
      toStamp a.date = toStamp b.date → a.level = "total" → b.level ≠ "service") := by
  have hp := pairwise_isort rowLe_trans rowLe_total
    ((a_totalOf dt cfg ++ a_serviceOf ds cfg ++ a_rgOf dr cfg).map normTagDate)
  refine ⟨hp, hp.imp ?_⟩
  intro a b hab hdate hlevel hserv
  rw [rowLe, if_neg (fun hc => hc hdate), hlevel, hserv,
    if_pos (by decide : ("total" : String) ≠ "service")] at hab
  exact absurd hab (by decide)

/-- C1 counterexample: a concrete input on which one date carries both a
total-level and a service-level anomaly, and the merged table lists the
service row before the total row. -/
theorem claim_C1_cex :
    (detect_anomalies dtX dsX [] cfgX).map (fun r => (r.level, r.date)) =
      [("service", DateVal.stamp 1), ("total", DateVal.stamp 1)] := by decide

/-- C9: absence of results is never an error.  If the detector produces
no record at any level the scanner returns the explicitly empty table,
and when the set of flagged total anomalies is empty the explainer
returns the explicitly empty result. -/
theorem claim_C9 :
    (∀ (dt : List TotalRow) (ds : List SvcRow) (dr : List RgRow) (cfg : AnomalyConfig),
      a_totalOf dt cfg = [] → a_serviceOf ds cfg = [] → a_rgOf dr cfg = [] →
      detect_anomalies dt ds dr cfg = []) ∧
    (∀ (ds : List SvcRow) (dr : List RgRow) (k : ℕ),
      explain_total_anomalies ds dr [] k = []) := by
  constructor
  · intro dt ds dr cfg h1 h2 h3
    rw [detect_anomalies, h1, h2, h3]
    rfl
  · intro ds dr k
    rfl

theorem claim_C9_witness :
    detect_anomalies [] [] [] cfgStd = [] ∧ explain_total_anomalies [] [] [] 3 = [] :=
  ⟨claim_C9.1 [] [] [] cfgStd rfl rfl rfl, claim_C9.2 [] [] 3⟩

/-- C3 (amended): `detect_anomalies` and `explain_total_anomalies` are
pure functions of their inputs, but `build_aggregates` mutates the raw
table passed to it: it normalizes the date column in place.  It
preserves every non-date column and the row count, and it is idempotent
— running it again on the mutated table reproduces the same state and
the same outputs. -/
theorem claim_C3 (df : List CostRecord) :
    ((build_aggregates df).1.map nonDateCols = df.map nonDateCols) ∧
    build_aggregates ((build_aggregates df).1) = build_aggregates df := by
  have hcomp : nonDateCols ∘ normRec = nonDateCols := funext fun r => rfl
  have hidem : normRec ∘ normRec = normRec := funext fun r => rfl
  constructor
  · show (df.map normRec).map nonDateCols = df.map nonDateCols
    rw [List.map_map, hcomp]
  · show ((df.map normRec).map normRec, aggTables ((df.map normRec).map normRec)) =
      (df.map normRec, aggTables (df.map normRec))
    rw [List.map_map, hidem]

/-- C3 counterexample: on a table whose date is an unnormalized string,
the input table observed after the `build_aggregates` call differs from
the table passed in — the stage is not pure in its input. -/
theorem claim_C3_cex : (build_aggregates dfX).1 ≠ dfX := by decide

theorem padSlots_length (k : ℕ) (l : List (String × ℚ)) : (padSlots k l).length = k := by
  rw [padSlots, List.length_map, List.length_range]

theorem padSlots_pad (k : ℕ) (l : List (String × ℚ)) (i : ℕ) (hik : i < k)
    (hl : l.length ≤ i) : (padSlots k l)[i]? = some ("", 0) := by
  rw [padSlots, List.getElem?_map, List.getElem?_range hik, Option.map_some',
    List.getElem?_eq_none hl]

/-- C8: every record the explainer emits carries exactly `top_k` service
slots and exactly `top_k` resource-group slots; when a day carries fewer
slices than `top_k`, every slot at a rank at or beyond the slice count
is the padding pair `("", 0.0)` rather than being omitted. -/
theorem claim_C8 (bsvc : List SvcRow) (brg : List RgRow) (anoms : List TaggedRow) (k : ℕ)
    (r : ExplRecord) (hr : r ∈ explain_total_anomalies bsvc brg anoms k) :
    r.services.length = k ∧ r.rgs.length = k ∧
    (∀ i, i < k → svcTodayCount bsvc r.date ≤ i → r.services[i]? = some ("", 0)) ∧
    (∀ i, i < k → rgTodayCount brg r.date ≤ i → r.rgs[i]? = some ("", 0)) := by
  rw [explain_total_anomalies] at hr
  by_cases he : anoms.isEmpty
  · rw [if_pos he] at hr
    exact absurd hr (List.not_mem_nil r)
  · rw [if_neg he] at hr
    obtain ⟨row, hrow, rfl⟩ := List.mem_map.mp hr
    refine ⟨padSlots_length _ _, padSlots_length _ _, ?_, ?_⟩
    · intro i hik hcnt
      apply padSlots_pad k _ i hik
      rw [length_isort, svcDeltas, List.length_map]
      exact hcnt
    · intro i hik hcnt
      apply padSlots_pad k _ i hik
      rw [length_isort, rgDeltas, List.length_map]
      exact hcnt

theorem claim_C8_witness :
    recX.services.length = 3 ∧ recX.rgs.length = 3 ∧ recX.services[2]? = some ("", 0) ∧
    recX.rgs[0]? = some ("", 0) := by
  have h := claim_C8 bsvcX [] anomX 3 recX (by decide)
  exact ⟨h.1, h.2.1, h.2.2.1 2 (by decide) (by decide), h.2.2.2 0 (by decide) (by decide)⟩

/-! ### Reconciliation of grouped sums (for C6) -/

theorem sum_map_ite {K : Type} [DecidableEq K] (c : K) (a : ℚ) (f : K → ℚ) :
    ∀ ks : List K, ks.Nodup →
      (ks.map (fun x => if c = x then a + f x else f x)).sum =
        (if c ∈ ks then a else 0) + (ks.map f).sum := by
  intro ks
  induction ks with
  | nil => intro _; simp
  | cons x ks ih =>
    intro hnd
    rw [List.nodup_cons] at hnd
    obtain ⟨hx, hnd⟩ := hnd
    rw [List.map_cons, List.sum_cons, List.map_cons, List.sum_cons, ih hnd]
    by_cases hcx : c = x
    · rw [if_pos hcx, if_pos (List.mem_cons.mpr (Or.inl hcx)),
        if_neg (fun hm => hx (hcx ▸ hm))]
      ring
    · rw [if_neg hcx]
      by_cases hm : c ∈ ks
      · rw [if_pos hm, if_pos (List.mem_cons_of_mem x hm)]
        ring
      · rw [if_neg hm, if_neg (fun hmm => by
          rcases List.mem_cons.mp hmm with h | h
          · exact hcx h
          · exact hm h)]
        ring

theorem sum_filter_partition {α K : Type} [DecidableEq K] (k : α → K) (v : α → ℚ) :
    ∀ (rows : List α) (ks : List K), ks.Nodup →
      (ks.map (fun x => ((rows.filter (fun r => k r = x)).map v).sum)).sum =
        ((rows.filter (fun r => k r ∈ ks)).map v).sum := by
  intro rows
  induction rows with
  | nil => intro ks _; simp
  | cons r rs ih =>
    intro ks hnd
    have hstep : ∀ x : K, (((r :: rs).filter (fun q => k q = x)).map v).sum =
        if k r = x then v r + ((rs.filter (fun q => k q = x)).map v).sum
        else ((rs.filter (fun q => k q = x)).map v).sum := by
      intro x
      rw [List.filter_cons]
      by_cases hkr : k r = x
      · rw [if_pos (decide_eq_true hkr), if_pos hkr, List.map_cons, List.sum_cons]
      · rw [if_neg (fun h => hkr (of_decide_eq_true h)), if_neg hkr]
    calc (ks.map (fun x => (((r :: rs).filter (fun q => k q = x)).map v).sum)).sum
        = (ks.map (fun x =>
            if k r = x then v r + ((rs.filter (fun q => k q = x)).map v).sum
            else ((rs.filter (fun q => k q = x)).map v).sum)).sum :=
          congrArg List.sum (List.map_congr_left (fun x _ => hstep x))
      _ = (if k r ∈ ks then v r else 0) +
            (ks.map (fun x => ((rs.filter (fun q => k q = x)).map v).sum)).sum :=
          sum_map_ite (k r) (v r) _ ks hnd
      _ = (if k r ∈ ks then v r else 0) + ((rs.filter (fun q => k q ∈ ks)).map v).sum := by
          rw [ih ks hnd]
      _ = (((r :: rs).filter (fun q => k q ∈ ks)).map v).sum := by
          rw [List.filter_cons]
          by_cases hm : k r ∈ ks
          · rw [if_pos hm, if_pos (decide_eq_true hm), List.map_cons, List.sum_cons]
          · rw [if_neg hm, if_neg (fun h => hm (of_decide_eq_true h)), zero_add]

theorem key_tables_sum {K : Type} [DecidableEq K] (df2 : List CostRecord)
    (keyFn : CostRecord → K) (keys : List K) (hnd : keys.Nodup)
    (hcomp : ∀ r ∈ df2, keyFn r ∈ keys) (P : K → Prop) [DecidablePred P] :
    ((keys.filter (fun x => P x)).map
        (fun x => ((df2.filter (fun r => keyFn r = x)).map (fun r => r.cost)).sum)).sum =
      ((df2.filter (fun r => P (keyFn r))).map (fun r => r.cost)).sum := by
  rw [sum_filter_partition keyFn (fun r => r.cost) df2 (keys.filter (fun x => P x))
    (hnd.filter _)]
  have hfe : df2.filter (fun r => keyFn r ∈ keys.filter (fun x => P x)) =
      df2.filter (fun r => P (keyFn r)) := by
    apply List.filter_congr
    intro r hr
    apply decide_eq_decide.mpr
    constructor
    · intro hmem
      exact of_decide_eq_true (List.mem_filter.mp hmem).2
    · intro hp
      exact List.mem_filter.mpr ⟨hcomp r hr, decide_eq_true hp⟩
  rw [hfe]

theorem total_table_sum (df2 : List CostRecord) (keys : List DateVal) (hnd : keys.Nodup)
    (hcomp : ∀ r ∈ df2, r.date ∈ keys) (d : DateVal) :
    (((keys.map (fun x => (⟨x,
          qsum ((df2.filter (fun r => r.date = x)).map (fun r => r.cost))⟩ : TotalRow))).filter
        (fun r => r.date = d)).map (fun r => r.total_cost)).sum =
      ((df2.filter (fun r => r.date = d)).map (fun r => r.cost)).sum := by
  rw [List.filter_map, List.map_map]
  show ((keys.filter (fun x => x = d)).map (fun x =>
      qsum ((df2.filter (fun r => r.date = x)).map (fun r => r.cost)))).sum = _
  rw [List.map_congr_left (fun x _ =>
    qsum_eq ((df2.filter (fun r => r.date = x)).map (fun r => r.cost)))]
  exact key_tables_sum df2 (fun r => r.date) keys hnd hcomp (fun x => x = d)

theorem svc_table_sum (df2 : List CostRecord) (keys : List (DateVal × String))
    (hnd : keys.Nodup) (hcomp : ∀ r ∈ df2, (r.date, r.service) ∈ keys) (d : DateVal) :
    (((keys.map (fun k => (⟨k.1, k.2, qsum ((df2.filter
          (fun r => (r.date, r.service) = k)).map (fun r => r.cost))⟩ : SvcRow))).filter
        (fun r => r.date = d)).map (fun r => r.cost)).sum =
      ((df2.filter (fun r => r.date = d)).map (fun r => r.cost)).sum := by
  rw [List.filter_map, List.map_map]
  show ((keys.filter (fun k => k.1 = d)).map (fun k =>
      qsum ((df2.filter (fun r => (r.date, r.service) = k)).map (fun r => r.cost)))).sum = _
  rw [List.map_congr_left (fun k _ =>
    qsum_eq ((df2.filter (fun r => (r.date, r.service) = k)).map (fun r => r.cost)))]
  exact key_tables_sum df2 (fun r => (r.date, r.service)) keys hnd hcomp (fun k => k.1 = d)

theorem rg_table_sum (df2 : List CostRecord) (keys : List (DateVal × String))
    (hnd : keys.Nodup) (hcomp : ∀ r ∈ df2, (r.date, r.resource_group) ∈ keys) (d : DateVal) :
    (((keys.map (fun k => (⟨k.1, k.2, qsum ((df2.filter
          (fun r => (r.date, r.resource_group) = k)).map (fun r => r.cost))⟩ : RgRow))).filter
        (fun r => r.date = d)).map (fun r => r.cost)).sum =
      ((df2.filter (fun r => r.date = d)).map (fun r => r.cost)).sum := by
  rw [List.filter_map, List.map_map]
  show ((keys.filter (fun k => k.1 = d)).map (fun k =>
      qsum ((df2.filter (fun r => (r.date, r.resource_group) = k)).map
        (fun r => r.cost)))).sum = _
  rw [List.map_congr_left (fun k _ =>
    qsum_eq ((df2.filter (fun r => (r.date, r.resource_group) = k)).map (fun r => r.cost)))]
  exact key_tables_sum df2 (fun r => (r.date, r.resource_group)) keys hnd hcomp
    (fun k => k.1 = d)

/-- C6: for every input and every date, the by-service costs of that
date sum exactly to the daily-total cost of that date, and likewise for
the by-resource-group table. -/
theorem claim_C6 (df : List CostRecord) (d : DateVal) :
    ((((build_aggregates df).2.2.1).filter (fun r => r.date = d)).map (fun r => r.cost)).sum =
      ((((build_aggregates df).2.1).filter (fun r => r.date = d)).map
        (fun r => r.total_cost)).sum ∧
    ((((build_aggregates df).2.2.2).filter (fun r => r.date = d)).map (fun r => r.cost)).sum =
      ((((build_aggregates df).2.1).filter (fun r => r.date = d)).map
        (fun r => r.total_cost)).sum := by
  have htot := total_table_sum (df.map normRec)
    (isort dateLe ((df.map normRec).map (fun r => r.date)).dedup)
    (List.Perm.nodup (isort_perm _ _).symm (List.nodup_dedup _))
    (fun r hr => mem_isort.mpr (List.mem_dedup.mpr (List.mem_map_of_mem _ hr))) d
  have hsvc := svc_table_sum (df.map normRec)
    (isort dsKeyLe ((df.map normRec).map (fun r => (r.date, r.service))).dedup)
    (List.Perm.nodup (isort_perm _ _).symm (List.nodup_dedup _))
    (fun r hr => mem_isort.mpr (List.mem_dedup.mpr (List.mem_map_of_mem _ hr))) d
  have hrg := rg_table_sum (df.map normRec)
    (isort dsKeyLe ((df.map normRec).map (fun r => (r.date, r.resource_group))).dedup)
    (List.Perm.nodup (isort_perm _ _).symm (List.nodup_dedup _))
    (fun r hr => mem_isort.mpr (List.mem_dedup.mpr (List.mem_map_of_mem _ hr))) d
  exact ⟨hsvc.trans htot.symm, hrg.trans htot.symm⟩
